import Mathlib

/-!
Shallow embedding of the `message-format` crate (pattern compiler and
tree-walking renderer from `src/lib.rs`, plus the `ParamValue` equality and
hashing logic from `src/param.rs`), together with theorems settling the
frozen claims about its specification.

Modelling conventions:
* Rust `String`/`&str` values are embedded as `List Char` (called `Str`).
* Rust `i64` is embedded as `Int`; the parsing functions implement the
  `i64` range checks of Rust's `parse::<i64>()`, and the renderer's `i64`
  arithmetic follows the debug-profile checked semantics: the diff
  subtraction errors outside the `i64` range and the `diff.abs()`
  conversion to `u64` errors at `i64::MIN` (a panic in both build modes);
  release-mode wrapping is outside the modelled fragment.
* Rust `HashMap<ParamValue, Vec<Block>>` is embedded as an association list
  with prepend-on-insert and first-match lookup, which has the same
  observable `get`/`contains_key` behaviour as overwrite-on-insert.
* Panics (`panic!`, `assert!`, `expect`, `unwrap`) are embedded as
  `Except.error` with the panic message.
* Recursive procedures whose recursion is not structural are given an
  explicit fuel parameter; the public entry points pass enough fuel for the
  recursion (which strictly consumes input characters) to complete.
* The regex-based scanning (`Regex::replace_all`, header regexes) is
  embedded as explicit left-to-right scanners implementing the same
  leftmost-match semantics; `\w` and `\s` are modelled by their ASCII
  classes, which is what every pattern in the repository uses.
* The external collaborators (ICU plural rules and the fixed decimal
  formatter) are out of scope of the spec and are modelled at their
  interface boundary (`LocaleModel`); a concrete `enUS` instance, modelled
  from the spec's examples, is used for witnesses.
-/

namespace MsgFmt

/-- Strings of the embedded program are lists of characters. -/
abbrev Str := List Char

/-- ASCII model of the regex class `\s` used by the pattern regexes. -/
def isWs (c : Char) : Bool := c.isWhitespace

/-- ASCII model of the regex class `\w` (word character). -/
def isWordChar (c : Char) : Bool := c.isAlphanum || c = '_'

/-- Decimal digit test, the regex class `\d`. -/
def isDigitChar (c : Char) : Bool := c.isDigit

/-- The decimal digit character for a value below ten. -/
def digitChar (n : Nat) : Char := Char.ofNat (48 + n)

/-- Fueled decimal rendering of a natural number, most significant digit
first; mirrors Rust's `Display` for unsigned integers. -/
def natReprAux : Nat → Nat → List Char
  | 0, _ => []
  | fuel+1, n =>
    if n < 10 then [digitChar n]
    else natReprAux fuel (n / 10) ++ [digitChar (n % 10)]

/-- Decimal rendering of a natural number (`n.to_string()` in Rust). -/
def natRepr (n : Nat) : List Char := natReprAux (n + 1) n

/-- Value of a list of decimal digit characters (used to relate renderings
back to numbers). -/
def digitsVal (ds : List Char) : Nat :=
  ds.foldl (fun a c => a * 10 + (c.toNat - 48)) 0

/-- The rarely-occurring marker code point `U+FDDF` used by `placeholder`
in `src/lib.rs` (`LITERAL_PLACEHOLDER`). -/
def markerChar : Char := '\uFDDF'

/-- Embedding of `fn placeholder(idx: usize) -> String` from `src/lib.rs`:
`format!("_{LITERAL_PLACEHOLDER}{idx}_")` with
`LITERAL_PLACEHOLDER = "\u{FDDF}_"`. -/
def placeholder (idx : Nat) : Str :=
  '_' :: markerChar :: '_' :: (natRepr idx ++ ['_'])

/-- Embedding of `enum ParamValue` from `src/lib.rs` (the revision that
carries the parser): an integer or a string. -/
inductive ParamValue where
  | int (n : Int)
  | str (s : Str)
deriving DecidableEq, Repr

/-- Embedding of `enum Block` from `src/lib.rs`. Choice blocks carry their
keyed option table (which, as in the source, also stores the two reserved
`argumentName` / `argumentOffset` entries). -/
inductive Block where
  | select (opts : List (ParamValue × List Block))
  | plural (opts : List (ParamValue × List Block))
  | ordinal (opts : List (ParamValue × List Block))
  | str (value : Str)
  | simple (value : Str)
deriving Repr

/-- The reserved key `"other"` (`const OTHER` in the source). -/
def pvOther : ParamValue := .str "other".data

/-- The reserved key `"argumentName"`. -/
def pvArgumentName : ParamValue := .str "argumentName".data

/-- The reserved key `"argumentOffset"`. -/
def pvArgumentOffset : ParamValue := .str "argumentOffset".data

/-- `HashMap::insert`, embedded as prepend (later inserts shadow earlier
ones under first-match lookup, matching overwrite semantics). -/
def hmInsert (k : ParamValue) (v : List Block)
    (m : List (ParamValue × List Block)) : List (ParamValue × List Block) :=
  (k, v) :: m

/-- `HashMap::get`, embedded as first-match lookup. -/
def hmGet : List (ParamValue × List Block) → ParamValue → Option (List Block)
  | [], _ => none
  | (k', v) :: rest, k => if k' = k then some v else hmGet rest k

/-- Parameter-map lookup (`HashMap<String, ParamValue>::get`). -/
def pLookup : List (Str × ParamValue) → Str → Option ParamValue
  | [], _ => none
  | (k', v) :: rest, k => if k' = k then some v else pLookup rest k

/-- Embedding of `enum ElementType` from `src/lib.rs`. -/
inductive ElementType where
  | string
  | block
deriving DecidableEq, Repr

/-- Embedding of `struct ElementTypeAndVal` from `src/lib.rs`. -/
structure ElementTypeAndVal where
  typ : ElementType
  value : Str
deriving Repr

/-- The six CLDR plural categories (`icu::plurals::PluralCategory`). -/
inductive PluralCategory where
  | zero
  | one
  | two
  | few
  | many
  | other
deriving DecidableEq, Repr

/-- Interface boundary of the external collaborators (spec section 6): the
locale's fixed decimal formatter and its cardinal plural rules. -/
structure LocaleModel where
  formatDecimal : Int → Str
  categoryFor : Nat → PluralCategory

/-- First pass of `MessageFormat::insert_placeholders` (`src/lib.rs`):
`DOUBLE_APOSTROPHE_RE` (`''`) `replace_all`, each match protected as the
literal `'` and replaced by a fresh placeholder token. -/
def doubleQuotePass : Str → List Str → Str × List Str
  | [], lits => ([], lits)
  | [c], lits => ([c], lits)
  | c :: d :: rest, lits =>
    if c = '\'' ∧ d = '\'' then
      let ph := placeholder lits.length
      let (out, lits') := doubleQuotePass rest (lits ++ [['\'']])
      (ph ++ out, lits')
    else
      let (out, lits') := doubleQuotePass (d :: rest) lits
      (c :: out, lits')

/-- Splits a string at its first apostrophe: `cs = before ++ '\'' :: after`
with no apostrophe in `before`. This captures the non-greedy `.*?'` tail of
`LITERAL_RE`. -/
def findQuoteSplit : Str → Option (Str × Str)
  | [] => none
  | c :: rest =>
    if c = '\'' then some ([], rest)
    else
      match findQuoteSplit rest with
      | some (b, a) => some (c :: b, a)
      | none => none

/-- Second pass of `insert_placeholders`: `LITERAL_RE` (`'([{}#].*?)'`)
`replace_all`, scanning left to right; a span starting with an apostrophe
followed by `{`, `}` or `#` and closed by the next apostrophe is protected
verbatim. The fuel is consumed once per step; one character or one whole
match is consumed per step, so fuel = input length always suffices. -/
def literalPassAux : Nat → Str → List Str → Str × List Str
  | _, [], lits => ([], lits)
  | 0, cs, lits => (cs, lits)
  | fuel+1, c :: rest, lits =>
    if c = '\'' then
      match rest with
      | [] => (['\''], lits)
      | d :: rest2 =>
        if d = '{' ∨ d = '}' ∨ d = '#' then
          match findQuoteSplit rest2 with
          | some (inner, after) =>
            let ph := placeholder lits.length
            let (out, lits') := literalPassAux fuel after (lits ++ [d :: inner])
            (ph ++ out, lits')
          | none =>
            let (out, lits') := literalPassAux fuel rest lits
            ('\'' :: out, lits')
        else
          let (out, lits') := literalPassAux fuel rest lits
          ('\'' :: out, lits')
    else
      let (out, lits') := literalPassAux fuel rest lits
      (c :: out, lits')

/-- Embedding of `MessageFormat::insert_placeholders` (`src/lib.rs`,
lines 159-177): the two literal-protection passes, threading the literal
table. -/
def insert_placeholders (cs : Str) : Str × List Str :=
  let (p1, l1) := doubleQuotePass cs []
  literalPassAux p1.length p1 l1

/-- Embedding of the brace scanner inside `MessageFormat::extract_parts`
(`src/lib.rs`, lines 203-247). `buf` holds the current segment reversed,
`depth` the brace nesting depth, `acc` the parts already emitted. -/
def extractPartsAux : Str → Nat → Str → List ElementTypeAndVal →
    Except String (List ElementTypeAndVal)
  | [], depth, buf, acc =>
    if depth ≠ 0 then
      .error "There are mismatched \x7b or \x7d in the pattern"
    else if buf.isEmpty then .ok acc
    else .ok (acc ++ [⟨.string, buf.reverse⟩])
  | c :: rest, depth, buf, acc =>
    if c = '{' then
      if depth = 0 then
        let acc' := acc ++ (if buf.isEmpty then [] else [⟨.string, buf.reverse⟩])
        extractPartsAux rest 1 [] acc'
      else extractPartsAux rest (depth + 1) (c :: buf) acc
    else if c = '}' then
      match depth with
      | 0 => .error "No matching \x7b for \x7d"
      | 1 => extractPartsAux rest 0 [] (acc ++ [⟨.block, buf.reverse⟩])
      | d + 2 => extractPartsAux rest (d + 1) ('}' :: buf) acc
    else extractPartsAux rest depth (c :: buf) acc

/-- Embedding of `MessageFormat::extract_parts`. -/
def extract_parts (cs : Str) : Except String (List ElementTypeAndVal) :=
  extractPartsAux cs 0 [] []

/-- Common shape of the three block-header regexes
`^\s*(\w+)\s*,\s*KEYWORD\s*,`: returns the captured argument name and the
remainder after the second comma. Greedy `\w+`/`\s*` need no backtracking
here because neither class can absorb the following comma. -/
def matchChoiceHeader (kw : Str) (cs : Str) : Option (Str × Str) :=
  let t1 := cs.dropWhile isWs
  let name := t1.takeWhile isWordChar
  if name.isEmpty then none
  else
    match (t1.drop name.length).dropWhile isWs with
    | ',' :: t3 =>
      let t4 := t3.dropWhile isWs
      if kw.isPrefixOf t4 then
        match (t4.drop kw.length).dropWhile isWs with
        | ',' :: t6 => some (name, t6)
        | _ => none
      else none
    | _ => none

/-- `PLURAL_BLOCK_RE` (`^\s*(\w+)\s*,\s*plural\s*,(?:\s*offset:(\d+))?`):
name, optional offset digits, and the remainder after the matched span. -/
def matchPluralHeader (cs : Str) : Option (Str × Option Str × Str) :=
  match matchChoiceHeader "plural".data cs with
  | none => none
  | some (name, rest) =>
    let t7 := rest.dropWhile isWs
    if ("offset:".data).isPrefixOf t7 then
      let t8 := t7.drop 7
      let ds := t8.takeWhile isDigitChar
      if ds.isEmpty then some (name, none, rest)
      else some (name, some ds, t8.drop ds.length)
    else some (name, none, rest)

/-- Result of `MessageFormat::parse_block_type` together with the capture
data of the winning header regex. -/
inductive BlockClass where
  | pluralC (name : Str) (offsetDigits : Option Str) (body : Str)
  | ordinalC (name : Str) (body : Str)
  | selectC (name : Str) (body : Str)
  | simpleC
  | unknownC

/-- Embedding of `MessageFormat::parse_block_type` (`src/lib.rs`, lines
249-263): try `PLURAL_BLOCK_RE`, `ORDINAL_BLOCK_RE`, `SELECT_BLOCK_RE`,
then `SIMPLE_RE` (`^\s*\w`), in this order. -/
def classifyBlock (cs : Str) : BlockClass :=
  match matchPluralHeader cs with
  | some (n, o, b) => .pluralC n o b
  | none =>
    match matchChoiceHeader "selectordinal".data cs with
    | some (n, b) => .ordinalC n b
    | none =>
      match matchChoiceHeader "select".data cs with
      | some (n, b) => .selectC n b
      | none =>
        match (cs.dropWhile isWs).head? with
        | some c => if isWordChar c then .simpleC else .unknownC
        | none => .unknownC

/-- Rust's `str::parse::<i64>()`: optional sign, at least one ASCII digit,
value within the `i64` range. -/
def parseI64 (cs : Str) : Option Int :=
  match cs with
  | [] => none
  | '+' :: rest =>
    if rest ≠ [] ∧ rest.all isDigitChar ∧ digitsVal rest ≤ 2 ^ 63 - 1 then
      some (digitsVal rest : Int)
    else none
  | '-' :: rest =>
    if rest ≠ [] ∧ rest.all isDigitChar ∧ digitsVal rest ≤ 2 ^ 63 then
      some (-(digitsVal rest : Int))
    else none
  | cs =>
    if cs.all isDigitChar ∧ digitsVal cs ≤ 2 ^ 63 - 1 then
      some (digitsVal cs : Int)
    else none

/-- One attempted match of `KV_RE` (`\s*=?(\w+)\s*`) at the current
position: on success returns the captured word and the remainder after the
whole match. -/
def kvStep (cs : Str) : Option (Str × Str) :=
  let r1 := cs.dropWhile isWs
  let r2 := match r1 with
    | '=' :: t => t
    | _ => r1
  let w := r2.takeWhile isWordChar
  if w.isEmpty then none
  else some (w, (r2.drop w.length).dropWhile isWs)

/-- `KV_RE.replace_all(key, |caps| caps[1])`: left-to-right scan replacing
each match of `\s*=?(\w+)\s*` by its captured word; on a failed position
the scan advances one character. Fuel = input length suffices since every
step consumes at least one character. -/
def kvReplaceAllAux : Nat → Str → Str
  | _, [] => []
  | 0, cs => cs
  | fuel+1, c :: rest =>
    match kvStep (c :: rest) with
    | some (w, after) => w ++ kvReplaceAllAux fuel after
    | none => c :: kvReplaceAllAux fuel rest

/-- Key normalisation of `parse_plural_block` / `parse_ordinal_block`
(`src/lib.rs`, lines 354-358 and 409-413): `KV_RE` replacement, then
`parse::<i64>()`, falling back to a string key. -/
def parsePluralKey (raw : Str) : ParamValue :=
  let cleaned := kvReplaceAllAux raw.length raw
  match parseI64 cleaned with
  | some n => .int n
  | none => .str cleaned

/-- Key normalisation of `parse_select_block` (`src/lib.rs`, lines
297-301): `WHITESPACES_RE.replace_all(key, "")` (which removes every
whitespace character and keeps everything else, including `=`), then
`parse::<i64>()`, falling back to a string key. -/
def parseSelectKey (raw : Str) : ParamValue :=
  let cleaned := raw.filter (fun c => !isWs c)
  match parseI64 cleaned with
  | some n => .int n
  | none => .str cleaned

/-- The three choice-block kinds. -/
inductive ChoiceKind where
  | select
  | plural
  | ordinal
deriving DecidableEq, Repr

/-- Panic message of the key/value loop when a key has no following part
(`assert!(pos < parts.len(), ...)`), per kind. -/
def kvMissingMsg : ChoiceKind → String
  | .select => "missing or invalid select value element"
  | .plural => "missing or invalid plural element"
  | .ordinal => "missing or invalid ordinal value element"

/-- Panic message of the final `assert!(result.contains_key(&OTHER...))`,
per kind. -/
def missingOtherMsg : ChoiceKind → String
  | .select => "missing other key in select statement"
  | .plural => "missing other key in plural statement"
  | .ordinal => "missing other key in ordinal statement"

/-- Key normalisation per choice kind. -/
def parseChoiceKey : ChoiceKind → Str → ParamValue
  | .select, raw => parseSelectKey raw
  | .plural, raw => parsePluralKey raw
  | .ordinal, raw => parsePluralKey raw

/-- `result.contains_key(&OTHER.into())`. -/
def containsOther (t : List (ParamValue × List Block)) : Bool :=
  (hmGet t pvOther).isSome

/-- The parsed `offset:` capture: absent means offset 0, digits are read
as their decimal value (`offset.as_str().parse().unwrap()`). -/
def offsetValue : Option Str → Nat
  | none => 0
  | some ds => digitsVal ds

/-- The pending work items of the recursive-descent parser. The source's
mutually recursive `parse_block` / `parse_select_block` /
`parse_plural_block` / `parse_ordinal_block` are merged into one fueled
function over these jobs so that the definition stays structurally
recursive (on the fuel) and kernel-reducible. -/
inductive PJob where
  | pat (cs : Str)
  | parts (ps : List ElementTypeAndVal)
  | kvs (kind : ChoiceKind) (ps : List ElementTypeAndVal)
      (acc : List (ParamValue × List Block))

/-- Parser results: a block list (from `parse_block`) or an option table
(from the key/value loop of a choice block). -/
inductive PRes where
  | blocks (bs : List Block)
  | table (t : List (ParamValue × List Block))

/-- The merged recursive-descent parser of `src/lib.rs` (lines 179-425):
`.pat` is `parse_block`, `.parts` its loop over the tokenizer output with
`parse_block_type` dispatch, `.kvs` the `(key block)+` loop shared by
`parse_select_block` / `parse_plural_block` / `parse_ordinal_block`
(including the reserved `argumentName`/`argumentOffset` entries, the
`offset` capture, key normalisation, and the final `"other"` check).
Each recursive call consumes one unit of fuel; every call strictly
consumes input, so fuel proportional to the pattern length suffices. -/
def parseGo : Nat → PJob → Except String PRes
  | _, .parts [] => .ok (.blocks [])
  | _, .kvs _ [] acc => .ok (.table acc)
  | 0, .pat _ => .error "parser out of fuel"
  | 0, .parts (_ :: _) => .error "parser out of fuel"
  | 0, .kvs _ (_ :: _) _ => .error "parser out of fuel"
  | fuel+1, .pat cs =>
    match extract_parts cs with
    | .error e => .error e
    | .ok parts => parseGo fuel (.parts parts)
  | fuel+1, .parts (part :: rest) =>
    match part.typ with
    | .string =>
      match parseGo fuel (.parts rest) with
      | .error e => .error e
      | .ok (.table _) => .error "parser logic error"
      | .ok (.blocks bs) => .ok (.blocks (.str part.value :: bs))
    | .block =>
      match classifyBlock part.value with
      | .unknownC =>
        .error ("unknown block type for pattern " ++ String.mk part.value)
      | .simpleC =>
        match parseGo fuel (.parts rest) with
        | .error e => .error e
        | .ok (.table _) => .error "parser logic error"
        | .ok (.blocks bs) => .ok (.blocks (.simple part.value :: bs))
      | .selectC name body =>
        let t0 := hmInsert pvArgumentName [Block.str name] []
        match extract_parts body with
        | .error e => .error e
        | .ok parts2 =>
          match parseGo fuel (.kvs .select parts2 t0) with
          | .error e => .error e
          | .ok (.blocks _) => .error "parser logic error"
          | .ok (.table tbl) =>
            if containsOther tbl then
              match parseGo fuel (.parts rest) with
              | .error e => .error e
              | .ok (.table _) => .error "parser logic error"
              | .ok (.blocks bs) => .ok (.blocks (.select tbl :: bs))
            else .error (missingOtherMsg .select)
      | .pluralC name offsetDigits body =>
        if offsetValue offsetDigits < 2 ^ 31 then
          let t0 := hmInsert pvArgumentOffset
            [Block.str (natRepr (offsetValue offsetDigits))]
            (hmInsert pvArgumentName [Block.str name] [])
          match extract_parts body with
          | .error e => .error e
          | .ok parts2 =>
            match parseGo fuel (.kvs .plural parts2 t0) with
            | .error e => .error e
            | .ok (.blocks _) => .error "parser logic error"
            | .ok (.table tbl) =>
              if containsOther tbl then
                match parseGo fuel (.parts rest) with
                | .error e => .error e
                | .ok (.table _) => .error "parser logic error"
                | .ok (.blocks bs) => .ok (.blocks (.plural tbl :: bs))
              else .error (missingOtherMsg .plural)
        else .error "offset overflow panic"
      | .ordinalC name body =>
        let t0 := hmInsert pvArgumentOffset [Block.str "0".data]
          (hmInsert pvArgumentName [Block.str name] [])
        match extract_parts body with
        | .error e => .error e
        | .ok parts2 =>
          match parseGo fuel (.kvs .ordinal parts2 t0) with
          | .error e => .error e
          | .ok (.blocks _) => .error "parser logic error"
          | .ok (.table tbl) =>
            if containsOther tbl then
              match parseGo fuel (.parts rest) with
              | .error e => .error e
              | .ok (.table _) => .error "parser logic error"
              | .ok (.blocks bs) => .ok (.blocks (.ordinal tbl :: bs))
            else .error (missingOtherMsg .ordinal)
  | fuel+1, .kvs kind (keyPart :: rest) acc =>
    match rest with
    | [] => .error (kvMissingMsg kind)
    | valPart :: rest2 =>
      match valPart.typ with
      | .string => .error "assert_eqed block type"
      | .block =>
        match parseGo fuel (.pat valPart.value) with
        | .error e => .error e
        | .ok (.table _) => .error "parser logic error"
        | .ok (.blocks bs) =>
          let key := parseChoiceKey kind keyPart.value
          parseGo fuel (.kvs kind rest2 (hmInsert key bs acc))

/-- `MessageFormat::parse_block` at the top level, with enough fuel for
the (input-consuming) recursion to complete. -/
def parse_block (cs : Str) : Except String (List Block) :=
  match parseGo (2 * cs.length + 8) (.pat cs) with
  | .error e => .error e
  | .ok (.table _) => .error "parser logic error"
  | .ok (.blocks bs) => .ok bs

/-- Value formatting inside `format_simple_placeholder` (`src/lib.rs`,
lines 497-503): integers go through the locale's fixed decimal formatter,
strings are emitted verbatim. -/
def formatParamValue (loc : LocaleModel) : ParamValue → Str
  | .int v => loc.formatDecimal v
  | .str s => s

/-- The category-to-key mapping inside `plural_rules_select` of
`src/lib.rs` (lines 627-639). Note the source's final arm:
`PluralCategory::Other => Some("many")`. -/
def pluralCategoryName : PluralCategory → Option Str
  | .zero => some "zero".data
  | .one => some "one".data
  | .two => some "two".data
  | .few => some "few".data
  | .many => some "many".data
  | .other => some "many".data

/-- The category-to-key mapping inside `plural_rules_select` of
`src/format.rs` (lines 233-244), where every category is mapped to its
own same-named key (`PluralCategory::Other => "other"`). -/
def pluralCategoryNameFormatRs : PluralCategory → Str
  | .zero => "zero".data
  | .one => "one".data
  | .two => "two".data
  | .few => "few".data
  | .many => "many".data
  | .other => "other".data

/-- Embedding of `fn plural_rules_select(n: u64, locale: &Locale)` from
`src/lib.rs`: the locale's cardinal category of `n`, mapped through the
source's category-name match. -/
def plural_rules_select (loc : LocaleModel) (n : Nat) : Option Str :=
  pluralCategoryName (loc.categoryFor n)

/-- Embedding of `fn ordinal_rules_select` from `src/lib.rs`: ordinals are
not supported and are routed through the cardinal rules. -/
def ordinal_rules_select (loc : LocaleModel) (n : Nat) : Option Str :=
  plural_rules_select loc n

/-- Rust `plural.replace('#', &diff)`: every `#` replaced by `d`. -/
def replacePound : Str → Str → Str
  | [], _ => []
  | c :: rest, d => (if c = '#' then d else [c]) ++ replacePound rest d

/-- `message_parts.join("")`. -/
def joinParts : List Str → Str
  | [] => []
  | p :: ps => p ++ joinParts ps

/-- The argument-resolution prelude of `format_plural_ordinal_block`
(`src/lib.rs`, lines 556-586): fetch the reserved `argumentName` /
`argumentOffset` entries (panic if malformed), then produce either an
inline diagnostic (missing parameter, non-integer parameter, unparsable
offset) or the numeric value and offset. The final step models the `i64`
subtraction `let diff = plural_value - argument_offset;` of line 586 with
its debug-profile checked semantics: a difference outside the `i64` range
panics (`attempt to subtract with overflow`); release-mode wrapping is
outside the modelled fragment. -/
def pluralOrdinalPrelude (opts : List (ParamValue × List Block))
    (params : List (Str × ParamValue)) : Except String (Sum Str (Int × Int)) :=
  match hmGet opts pvArgumentName with
  | some (Block.str argName :: _) =>
    match hmGet opts pvArgumentOffset with
    | some (Block.str offStr :: _) =>
      match pLookup params argName with
      | none => .ok (.inl ("Undefined parameter - ".data ++ argName))
      | some pv =>
        match pv with
        | .str _ => .ok (.inl ("Invalid parameter - ".data ++ argName))
        | .int v =>
          match parseI64 offStr with
          | none => .ok (.inl ("Invalid offset - ".data ++ offStr))
          | some k =>
            if v - k < -(2 ^ 63) ∨ 2 ^ 63 - 1 < v - k then
              .error "attempt to subtract with overflow"
            else .ok (.inr (v, k))
    | _ => .error "invalid argument offset"
  | _ => .error "invalid argument name"

/-- The category-based branch resolution of `format_plural_ordinal_block`
(`src/lib.rs`, lines 593-604): the selector's key name (panic if `None`)
is looked up in the table, falling back to `"other"`. -/
def categoryResolve (opts : List (ParamValue × List Block))
    (item : Option Str) : Except String (List Block) :=
  match item with
  | none => .error "Invalid plural key"
  | some it =>
    match hmGet opts (.str it) with
    | some option => .ok option
    | none =>
      match hmGet opts pvOther with
      | some option => .ok option
      | none => .error "Invalid option or missing other option for plural block"

/-- The branch choice of `format_plural_ordinal_block` (`src/lib.rs`,
lines 590-605): exact-match lookup on the raw runtime value first (no
further checks on that path), and only on a miss the conversion
`diff.abs().try_into::<u64>().unwrap()` followed by category resolution
of `|value - offset|`. The conversion panics when `diff` is `i64::MIN`
in both build modes (debug: `abs` overflows negating `i64::MIN`;
release: `abs` wraps to `i64::MIN` and the `u64` conversion fails, so
`unwrap` panics); the debug panic message is used. For every other
in-range `diff` the absolute value fits `u64` exactly. -/
def choosePluralOption (opts : List (ParamValue × List Block)) (v : Int)
    (sel : Nat → Option Str) (k : Int) : Except String (List Block) :=
  match hmGet opts (.int v) with
  | some option => .ok option
  | none =>
    if v - k = -(2 ^ 63) then .error "attempt to negate with overflow"
    else categoryResolve opts (sel (v - k).natAbs)

/-- Embedding of `format_block` (`src/lib.rs`, lines 433-483) together
with the bodies of `format_simple_placeholder`, `format_select_block` and
`format_plural_ordinal_block` (lines 485-625), merged into one fueled
function (the recursion into chosen sub-patterns is not structural).
Returns the emitted message parts and the grown literal table.
Each recursive call consumes one unit of fuel; the entry point passes
fuel exceeding the total number of blocks reachable along any chain. -/
def fmtGo (loc : LocaleModel) (params : List (Str × ParamValue))
    (ign : Bool) : Nat → List Block → List Str →
    Except String (List Str × List Str)
  | _, [], lits => .ok ([], lits)
  | 0, _ :: _, _ => .error "renderer out of fuel"
  | fuel+1, b :: rest, lits =>
    match b with
    | .str s =>
      match fmtGo loc params ign fuel rest lits with
      | .error e => .error e
      | .ok (ps, l') => .ok (s :: ps, l')
    | .simple name =>
      match pLookup params name with
      | none =>
        match fmtGo loc params ign fuel rest lits with
        | .error e => .error e
        | .ok (ps, l') => .ok (("Undefined parameter - ".data ++ name) :: ps, l')
      | some v =>
        let ph := placeholder lits.length
        match fmtGo loc params ign fuel rest (lits ++ [formatParamValue loc v]) with
        | .error e => .error e
        | .ok (ps, l') => .ok (ph :: ps, l')
    | .select opts =>
      match hmGet opts pvArgumentName with
      | some (Block.str argName :: _) =>
        (match pLookup params argName with
         | none =>
           match fmtGo loc params ign fuel rest lits with
           | .error e => .error e
           | .ok (ps, l') =>
             .ok (("Undefined parameter - ".data ++ argName) :: ps, l')
         | some param =>
           match (hmGet opts param).orElse (fun _ => hmGet opts pvOther) with
           | none => .error "Invalid option or missing other option for select block"
           | some option =>
             match fmtGo loc params ign fuel option lits with
             | .error e => .error e
             | .ok (p1, l1) =>
               match fmtGo loc params ign fuel rest l1 with
               | .error e => .error e
               | .ok (p2, l2) => .ok (p1 ++ p2, l2))
      | _ => .error "invalid argument name"
    | .plural opts =>
      match pluralOrdinalPrelude opts params with
      | .error e => .error e
      | .ok (.inl diag) =>
        match fmtGo loc params ign fuel rest lits with
        | .error e => .error e
        | .ok (ps, l') => .ok (diag :: ps, l')
      | .ok (.inr (v, k)) =>
        match choosePluralOption opts v (plural_rules_select loc) k with
        | .error e => .error e
        | .ok option =>
          match fmtGo loc params ign fuel option lits with
          | .error e => .error e
          | .ok (p1, l1) =>
            let plural := joinParts p1
            let out := if ign then plural
              else replacePound plural (loc.formatDecimal (v - k))
            match fmtGo loc params ign fuel rest l1 with
            | .error e => .error e
            | .ok (p2, l2) => .ok (out :: p2, l2)
    | .ordinal opts =>
      match pluralOrdinalPrelude opts params with
      | .error e => .error e
      | .ok (.inl diag) =>
        match fmtGo loc params ign fuel rest lits with
        | .error e => .error e
        | .ok (ps, l') => .ok (diag :: ps, l')
      | .ok (.inr (v, k)) =>
        match choosePluralOption opts v (ordinal_rules_select loc) k with
        | .error e => .error e
        | .ok option =>
          match fmtGo loc params ign fuel option lits with
          | .error e => .error e
          | .ok (p1, l1) =>
            let plural := joinParts p1
            let out := if ign then plural
              else replacePound plural (loc.formatDecimal (v - k))
            match fmtGo loc params ign fuel rest l1 with
            | .error e => .error e
            | .ok (p2, l2) => .ok (out :: p2, l2)

/-- Rust `message.replacen(&pat, &rep, 1)` for nonempty `pat`: replace the
first occurrence of `pat` in the message. -/
def replaceFirst : Str → Str → Str → Str
  | [], _, _ => []
  | c :: rest, pat, rep =>
    if pat.isPrefixOf (c :: rest) then rep ++ (c :: rest).drop pat.length
    else c :: replaceFirst rest pat rep

/-- The literal restoration loop of `format_impl` (`src/lib.rs`, lines
142-145), on the reversed literal table: pop the highest-indexed literal,
replace the first occurrence of its placeholder token, repeat. -/
def restoreAux : Str → List Str → Str
  | msg, [] => msg
  | msg, l :: rest => restoreAux (replaceFirst msg (placeholder rest.length) l) rest

/-- `while let Some(literal) = literals.pop() { ... }`: walk the working
literal table from the highest index down to zero. -/
def restoreLiterals (msg : Str) (lits : List Str) : Str :=
  restoreAux msg lits.reverse

/-- The rendering part of `format_impl` (`src/lib.rs`, lines 121-147)
after parsing: render the blocks, join the parts, assert that no literal
`#` survives when `ignore_pound` is false, then restore literals. -/
def formatParsed (loc : LocaleModel) (blocks : List Block) (lits0 : List Str)
    (params : List (Str × ParamValue)) (ign : Bool) (fuel : Nat) :
    Except String Str :=
  if blocks.isEmpty then .ok []
  else
    match fmtGo loc params ign fuel blocks lits0 with
    | .error e => .error e
    | .ok (parts, lits) =>
      let message := joinParts parts
      if !ign ∧ '#' ∈ message then .error "not all # were replaced"
      else .ok (restoreLiterals message lits)

/-- Embedding of `MessageFormat::format_impl` (`src/lib.rs`, lines
114-148) together with `init` (lines 150-157): protect literals, parse,
render, assert, restore. -/
def format_impl (loc : LocaleModel) (pattern : Str) (ign : Bool)
    (params : List (Str × ParamValue)) : Except String Str :=
  let (p2, initLits) := insert_placeholders pattern
  match parse_block p2 with
  | .error e => .error e
  | .ok parsed => formatParsed loc parsed initLits params ign (p2.length + 1)

/-- Helper for `enFormatDecimal`: working on the reversed digit list,
insert a comma before every further group of three digits. -/
def commaRev : Str → Nat → Str
  | [], _ => []
  | c :: rest, i =>
    if i % 3 = 0 ∧ i ≠ 0 then ',' :: c :: commaRev rest (i + 1)
    else c :: commaRev rest (i + 1)

/-- Modelled from the spec (section 6, external number-formatter
collaborator): the `en-US` `FixedDecimalFormatter` with default options,
rendering an integer with `,` digit grouping (`1234` -> `1,234`). -/
def enFormatDecimal (z : Int) : Str :=
  (if z < 0 then ['-'] else []) ++ (commaRev (natRepr z.natAbs).reverse 0).reverse

/-- Modelled from the spec (section 6, external plural-rules
collaborator): CLDR `en` cardinal rules on an unsigned integer operand —
category `one` exactly at 1, `other` otherwise. -/
def enCategoryFor (n : Nat) : PluralCategory :=
  if n = 1 then .one else .other

/-- The `en-US` locale collaborator used by the repository's defaults. -/
def enUS : LocaleModel :=
  { formatDecimal := enFormatDecimal, categoryFor := enCategoryFor }

/-! ### Embedding of `src/param.rs` (`ParamValueInner` equality/hashing)

Rust `f64` is modelled as a tagged value: NaN, a signed infinity, or a
finite value carried exactly as a rational (every finite double is an
exact rational; rounding of arithmetic plays no role in the embedded
code, which only classifies and casts values). `OrderedFloat`'s total
equality is structural equality of this model. -/

/-- Model of `f64` (wrapped in `ordered_float::OrderedFloat`). -/
inductive F64 where
  | finite (q : ℚ)
  | inf (pos : Bool)
  | nan
deriving DecidableEq

/-- Rust's saturating float-to-int cast `x as i64`, restricted to integral
finite inputs (the only way `as_integer` uses it): clamp to the `i64`
range. -/
def satCastI64 (z : Int) : Int :=
  max (-(2 ^ 63)) (min (2 ^ 63 - 1) z)

/-- Embedding of `fn as_integer(x: f64) -> Option<i64>` from
`src/param.rs`: `(x.is_finite() && x.fract() == 0.0).then_some(x as i64)`.
A finite value has zero fractional part exactly when its rational is an
integer (denominator 1). -/
def as_integer : F64 → Option Int
  | .finite q => if q.den = 1 then some (satCastI64 q.num) else none
  | .inf _ => none
  | .nan => none

/-- Embedding of `enum ParamValueInner` from `src/param.rs`. -/
inductive ParamValueInner where
  | int (n : Int)
  | dec (x : F64)
  | string (s : String)
deriving DecidableEq

/-- Embedding of `impl PartialEq for ParamValueInner` (`src/param.rs`,
lines 25-36). -/
def paramEq : ParamValueInner → ParamValueInner → Bool
  | .int a, .int b => a = b
  | .dec a, .dec b => a = b
  | .string a, .string b => a = b
  | .int a, .dec b => as_integer b = some a
  | .dec a, .int b => as_integer a = some b
  | _, _ => false

/-- The data fed to the hasher, which determines the hash value: equal
hash tokens give equal hashes under any `Hasher`. -/
inductive HashToken where
  | hInt (n : Int)
  | hFloat (x : F64)
  | hStr (s : String)
deriving DecidableEq

/-- Embedding of `impl Hash for ParamValueInner` (`src/param.rs`, lines
42-56): an integral finite decimal hashes as its `i64` cast, any other
decimal as its float bits. -/
def paramHash : ParamValueInner → HashToken
  | .int a => .hInt a
  | .dec a =>
    match as_integer a with
    | some i => .hInt i
    | none => .hFloat a
  | .string a => .hStr a

/-! ### Lemmas about the decimal rendering and the placeholder tokens -/

theorem natReprAux_congr : ∀ (n f1 f2 : Nat), n < f1 → n < f2 →
    natReprAux f1 n = natReprAux f2 n := by
  intro n
  induction n using Nat.strong_induction_on with
  | _ n ih =>
    intro f1 f2 h1 h2
    match f1, f2 with
    | g1 + 1, g2 + 1 =>
      simp only [natReprAux]
      by_cases h10 : n < 10
      · simp [h10]
      · have hpos : 0 < n := by omega
        have hlt : n / 10 < n := Nat.div_lt_self hpos (by norm_num)
        simp only [h10, if_false]
        rw [ih (n / 10) hlt g1 g2 (by omega) (by omega)]

theorem natRepr_of_lt (n : Nat) (h : n < 10) : natRepr n = [digitChar n] := by
  simp [natRepr, natReprAux, h]

theorem natRepr_of_ge (n : Nat) (h : 10 ≤ n) :
    natRepr n = natRepr (n / 10) ++ [digitChar (n % 10)] := by
  have hlt : n / 10 < n := Nat.div_lt_self (by omega) (by norm_num)
  show natReprAux (n + 1) n = _
  simp only [natReprAux, Nat.not_lt.mpr h, if_false]
  rw [natReprAux_congr (n / 10) n (n / 10 + 1) (by omega) (by omega)]
  rfl

theorem digitChar_toNat (n : Nat) (h : n < 10) : (digitChar n).toNat = 48 + n := by
  interval_cases n <;> decide

theorem digitsVal_singleton (c : Char) : digitsVal [c] = c.toNat - 48 := by
  simp [digitsVal]

theorem digitsVal_append_singleton (ds : List Char) (c : Char) :
    digitsVal (ds ++ [c]) = digitsVal ds * 10 + (c.toNat - 48) := by
  simp [digitsVal, List.foldl_append]

theorem digitsVal_natRepr : ∀ n, digitsVal (natRepr n) = n := by
  intro n
  induction n using Nat.strong_induction_on with
  | _ n ih =>
    by_cases h10 : n < 10
    · rw [natRepr_of_lt n h10, digitsVal_singleton, digitChar_toNat n h10]
      omega
    · have hlt : n / 10 < n := Nat.div_lt_self (by omega) (by norm_num)
      rw [natRepr_of_ge n (by omega), digitsVal_append_singleton, ih (n / 10) hlt,
        digitChar_toNat (n % 10) (Nat.mod_lt n (by norm_num))]
      omega

theorem natRepr_inj {m n : Nat} (h : natRepr m = natRepr n) : m = n := by
  have := digitsVal_natRepr m
  rw [h, digitsVal_natRepr n] at this
  omega

theorem natRepr_mem_digit : ∀ (n : Nat), ∀ c ∈ natRepr n,
    48 ≤ c.toNat ∧ c.toNat ≤ 57 := by
  intro n
  induction n using Nat.strong_induction_on with
  | _ n ih =>
    intro c hc
    by_cases h10 : n < 10
    · rw [natRepr_of_lt n h10] at hc
      simp at hc
      subst hc
      rw [digitChar_toNat n h10]
      omega
    · rw [natRepr_of_ge n (by omega)] at hc
      have hlt : n / 10 < n := Nat.div_lt_self (by omega) (by norm_num)
      rcases List.mem_append.mp hc with h | h
      · exact ih (n / 10) hlt c h
      · simp at h
        subst h
        rw [digitChar_toNat (n % 10) (Nat.mod_lt n (by norm_num))]
        omega

theorem underscore_not_mem_natRepr (n : Nat) : '_' ∉ natRepr n := by
  intro h
  exact absurd (natRepr_mem_digit n '_' h) (by decide)

theorem marker_not_mem_natRepr (n : Nat) : markerChar ∉ natRepr n := by
  intro h
  exact absurd (natRepr_mem_digit n markerChar h) (by decide)

theorem count_marker_placeholder (n : Nat) :
    List.count markerChar (placeholder n) = 1 := by
  simp only [placeholder, List.count_cons, List.count_append]
  rw [List.count_eq_zero.mpr (marker_not_mem_natRepr n)]
  simp [markerChar]

theorem firstSep : ∀ (a : Str) (b s t : Str),
    a ++ '_' :: s = b ++ '_' :: t → '_' ∉ a → '_' ∉ b → a = b := by
  intro a
  induction a with
  | nil =>
    intro b s t h _ hb
    match b with
    | [] => rfl
    | c :: b' =>
      simp only [List.nil_append, List.cons_append, List.cons.injEq] at h
      exact absurd (h.1 ▸ List.mem_cons_self c b') hb
  | cons c a' ih =>
    intro b s t h ha hb
    match b with
    | [] =>
      simp only [List.cons_append, List.nil_append, List.cons.injEq] at h
      exact absurd (h.1 ▸ List.mem_cons_self c a') ha
    | c' :: b' =>
      simp only [List.cons_append, List.cons.injEq] at h
      have := ih b' s t h.2 (fun hm => ha (List.mem_cons_of_mem c hm))
        (fun hm => hb (List.mem_cons_of_mem c' hm))
      rw [h.1, this]

theorem placeholder_infix_inj {i j : Nat}
    (h : placeholder i <:+: placeholder j) : i = j := by
  obtain ⟨s, t, h⟩ := h
  have hcount : List.count markerChar s = 0 := by
    have := congrArg (List.count markerChar) h
    simp only [List.count_append, count_marker_placeholder] at this
    omega
  match s with
  | [] =>
    simp only [List.nil_append, placeholder, List.cons_append, List.append_assoc,
      List.cons.injEq] at h
    have h4 : natRepr i ++ '_' :: t = natRepr j ++ '_' :: [] := by
      have := h.2.2.2
      simpa [List.append_assoc] using this
    have := firstSep (natRepr i) (natRepr j) t [] h4
      (underscore_not_mem_natRepr i) (underscore_not_mem_natRepr j)
    exact natRepr_inj this
  | ['_'] =>
    have hh := congrArg (fun l => l.tail.head?) h
    simp only [placeholder, List.singleton_append, List.cons_append,
      List.nil_append, List.tail_cons, List.head?_cons, Option.some.injEq] at hh
    exact absurd hh (by decide)
  | c :: c' :: s'' =>
    simp only [placeholder, List.cons_append, List.cons.injEq] at h
    have hmem : markerChar ∈ c :: c' :: s'' :=
      h.2.1 ▸ List.mem_cons_of_mem c (List.mem_cons_self c' s'')
    rw [List.count_eq_zero] at hcount
    exact absurd hmem hcount

/-! ### Plain-text behaviour of the compile-render pipeline -/

theorem doubleQuotePass_id : ∀ (cs : Str) (lits : List Str),
    ¬ (['\'', '\''] <:+: cs) → doubleQuotePass cs lits = (cs, lits) := by
  intro cs
  induction cs with
  | nil => intro lits _; rfl
  | cons c rest ih =>
    intro lits hinf
    match rest with
    | [] => rfl
    | d :: rest2 =>
      have hne : ¬ (c = '\'' ∧ d = '\'') := by
        rintro ⟨h1, h2⟩
        exact hinf ⟨[], rest2, by simp [h1, h2]⟩
      have hrest : ¬ (['\'', '\''] <:+: d :: rest2) := fun hx =>
        hinf (hx.trans (List.suffix_cons c (d :: rest2)).isInfix)
      simp only [doubleQuotePass, if_neg hne]
      rw [ih lits hrest]

theorem literalPassAux_id : ∀ (fuel : Nat) (cs : Str) (lits : List Str),
    '{' ∉ cs → '}' ∉ cs → '#' ∉ cs →
    literalPassAux fuel cs lits = (cs, lits) := by
  intro fuel
  induction fuel with
  | zero =>
    intro cs lits _ _ _
    match cs with
    | [] => rfl
    | _ :: _ => rfl
  | succ fuel ih =>
    intro cs lits h1 h2 h3
    match cs with
    | [] => rfl
    | c :: rest =>
      have h1' : '{' ∉ rest := fun h => h1 (List.mem_cons_of_mem c h)
      have h2' : '}' ∉ rest := fun h => h2 (List.mem_cons_of_mem c h)
      have h3' : '#' ∉ rest := fun h => h3 (List.mem_cons_of_mem c h)
      by_cases hc : c = '\''
      · subst hc
        match rest, h1', h2', h3' with
        | [], _, _, _ => rfl
        | d :: rest2, h1', h2', h3' =>
          have hd : ¬ (d = '{' ∨ d = '}' ∨ d = '#') := by
            rintro (rfl | rfl | rfl)
            · exact h1 (List.mem_cons_of_mem _ (List.mem_cons_self _ _))
            · exact h2 (List.mem_cons_of_mem _ (List.mem_cons_self _ _))
            · exact h3 (List.mem_cons_of_mem _ (List.mem_cons_self _ _))
          simp only [literalPassAux, if_pos rfl, if_neg hd]
          rw [ih (d :: rest2) lits h1' h2' h3']
          simp
      · simp only [literalPassAux, if_neg hc]
        rw [ih rest lits h1' h2' h3']

theorem insert_placeholders_id (cs : Str) (h1 : '{' ∉ cs) (h2 : '}' ∉ cs)
    (h3 : '#' ∉ cs) (hq : ¬ (['\'', '\''] <:+: cs)) :
    insert_placeholders cs = (cs, []) := by
  unfold insert_placeholders
  rw [doubleQuotePass_id cs [] hq]
  exact literalPassAux_id cs.length cs [] h1 h2 h3

theorem extractPartsAux_nobrace : ∀ (cs : Str) (buf : Str)
    (acc : List ElementTypeAndVal), '{' ∉ cs → '}' ∉ cs →
    extractPartsAux cs 0 buf acc =
      .ok (acc ++ (if buf.reverse ++ cs = [] then []
        else [⟨.string, buf.reverse ++ cs⟩])) := by
  intro cs
  induction cs with
  | nil =>
    intro buf acc _ _
    simp only [extractPartsAux, List.append_nil]
    by_cases hb : buf.isEmpty
    · simp [hb, List.isEmpty_iff.mp hb]
    · have : buf ≠ [] := fun h => hb (by simp [h])
      have : buf.reverse ≠ [] := by simpa using this
      simp [hb, this]
  | cons c rest ih =>
    intro buf acc h1 h2
    have hco : c ≠ '{' := fun h => h1 (h ▸ List.mem_cons_self c rest)
    have hcc : c ≠ '}' := fun h => h2 (h ▸ List.mem_cons_self c rest)
    have h1' : '{' ∉ rest := fun h => h1 (List.mem_cons_of_mem c h)
    have h2' : '}' ∉ rest := fun h => h2 (List.mem_cons_of_mem c h)
    simp only [extractPartsAux, if_neg hco, if_neg hcc]
    rw [ih (c :: buf) acc h1' h2']
    have hne : buf.reverse ++ c :: rest ≠ [] := by simp
    have hne2 : (c :: buf).reverse ++ rest ≠ [] := by simp
    simp only [List.reverse_cons, List.append_assoc, List.singleton_append,
      if_neg hne, if_neg hne2]

theorem extract_parts_nobrace (cs : Str) (h1 : '{' ∉ cs) (h2 : '}' ∉ cs) :
    extract_parts cs = .ok (if cs = [] then [] else [⟨.string, cs⟩]) := by
  unfold extract_parts
  rw [extractPartsAux_nobrace cs [] [] h1 h2]
  simp

theorem parse_block_nobrace (cs : Str) (h1 : '{' ∉ cs) (h2 : '}' ∉ cs) :
    parse_block cs = .ok (if cs = [] then [] else [Block.str cs]) := by
  unfold parse_block
  have hgo : parseGo (2 * cs.length + 8) (.pat cs) =
      .ok (.blocks (if cs = [] then [] else [Block.str cs])) := by
    rw [show 2 * cs.length + 8 = (2 * cs.length + 7) + 1 from rfl]
    simp only [parseGo, extract_parts_nobrace cs h1 h2]
    by_cases hcs : cs = []
    · simp [hcs, parseGo]
    · simp only [if_neg hcs]
      rw [show 2 * cs.length + 7 = (2 * cs.length + 6) + 1 from rfl]
      simp [parseGo]
  rw [hgo]

theorem formatParsed_single_str (loc : LocaleModel)
    (params : List (Str × ParamValue)) (ign : Bool) (fuel : Nat) (cs : Str)
    (h3 : '#' ∉ cs) :
    formatParsed loc [Block.str cs] [] params ign (fuel + 1) = .ok cs := by
  unfold formatParsed
  have hfmt : fmtGo loc params ign (fuel + 1) [Block.str cs] [] =
      .ok ([cs], []) := by
    simp [fmtGo]
  rw [hfmt]
  simp only [List.isEmpty_cons, joinParts, List.append_nil]
  have : ¬(!ign ∧ '#' ∈ cs) := fun h => h3 h.2
  simp only [Bool.false_eq_true, if_false, this, if_neg this]
  rfl

/-- C4 (counterexample): the claim is false as stated. The pattern `a''b`
contains no argument syntax (no placeholder and no choice block), yet the
pipeline renders it as `a'b`: the literal protector rewrites the doubled
single quote, so compile-then-render is not the identity on all
argument-free text. -/
theorem c4_counterexample :
    format_impl enUS "a''b".data false [] = .ok "a'b".data ∧
      "a'b".data ≠ "a''b".data := by
  exact ⟨rfl, by decide⟩

/-- C4 (amended): for every pattern that contains no argument syntax and
none of the characters the literal protector or the pound assertion react
to — no `{`, no `}`, no `#`, and no doubled single quote — rendering
returns the input text unchanged, for every locale, parameter map and
`ignorePound` flag. -/
theorem c4_plain_text_identity (loc : LocaleModel)
    (params : List (Str × ParamValue)) (ign : Bool) (cs : Str)
    (h1 : '{' ∉ cs) (h2 : '}' ∉ cs) (h3 : '#' ∉ cs)
    (hq : ¬ (['\'', '\''] <:+: cs)) :
    format_impl loc cs ign params = .ok cs := by
  unfold format_impl
  rw [insert_placeholders_id cs h1 h2 h3 hq]
  simp only [parse_block_nobrace cs h1 h2]
  by_cases hcs : cs = []
  · subst hcs
    rfl
  · simp only [if_neg hcs]
    exact formatParsed_single_str loc params ign cs.length cs h3

/-- C4 (witness): the amended identity at a concrete plain-text input. -/
theorem c4_witness :
    format_impl enUS "New York is nice.".data false [] =
      .ok "New York is nice.".data :=
  c4_plain_text_identity enUS [] false "New York is nice.".data
    (by decide) (by decide) (by decide) (by decide)

/-- C5: quoted literals round-trip through compile and render — `'{0}'`
renders as the literal `{0}` and `''` as one literal single quote; `{`,
`}` and `#` inside a string-valued runtime parameter are emitted verbatim
(the parameter value `"} {"` and the value `"group#1"` survive a plural
branch with pound substitution untouched); and restoration walks the
working literal table from the highest index down to zero, replacing the
first occurrence of each entry's placeholder token. -/
theorem c5_literal_round_trip :
    format_impl enUS "'\x7b0\x7d'".data false [] = .ok "\x7b0\x7d".data ∧
    format_impl enUS "''".data false [] = .ok "'".data ∧
    format_impl enUS "\x7bSOME_NUM, plural, other \x7b# \x7bGROUP\x7d\x7d\x7d".data
      false [("SOME_NUM".data, .int 10), ("GROUP".data, .str "\x7d \x7b".data)] =
      .ok "10 \x7d \x7b".data ∧
    format_impl enUS "\x7bSOME_NUM, plural, other \x7b# \x7bGROUP\x7d\x7d\x7d".data
      false [("SOME_NUM".data, .int 10), ("GROUP".data, .str "group#1".data)] =
      .ok "10 group#1".data ∧
    ∀ (msg : Str) (lits : List Str) (l : Str),
      restoreLiterals msg (lits ++ [l]) =
        restoreLiterals (replaceFirst msg (placeholder lits.length) l) lits := by
  refine ⟨rfl, rfl, rfl, rfl, ?_⟩
  intro msg lits l
  simp [restoreLiterals, restoreAux, List.reverse_append]

/-- C3: the claim is right and `src/lib.rs` is wrong. The renderer does
look the selector's answer up in the options table with `"other"` as
fallback, but the `plural_rules_select` of `src/lib.rs` maps the CLDR
category `Other` to the key `"many"` instead of its own name (an obvious
slip: the arm above it already maps `Many` to `"many"`, and the later
revision in `src/format.rs` maps `Other` to `"other"`). At the failing
input `n = 5` under `en` rules the category is `other`, the selector
answers `"many"`, and a plural block offering both a `many` and an `other`
branch renders the `many` branch. -/
theorem c3_other_category_mapped_to_many :
    plural_rules_select enUS 5 = some "many".data ∧
    enUS.categoryFor 5 = PluralCategory.other ∧
    pluralCategoryName PluralCategory.other = some "many".data ∧
    pluralCategoryNameFormatRs PluralCategory.other = "other".data ∧
    format_impl enUS "\x7bN, plural, many \x7bM\x7d other \x7bO\x7d\x7d".data
      false [("N".data, .int 5)] = .ok "M".data :=
  ⟨rfl, rfl, rfl, rfl, rfl⟩

/-- C8: runtime render errors are non-fatal inline diagnostics. For a
plural (or ordinal, which shares the same code path) block: a missing
parameter emits `Undefined parameter - NAME`, a non-numeric parameter
emits `Invalid parameter - NAME`, an unparsable offset emits
`Invalid offset - X`, and in each case rendering returns normally with the
literal table untouched; the full pipeline on `{result}` with the
parameter map `{A: "none"}` completes and returns the string
`Undefined parameter - result`. -/
theorem c8_runtime_diagnostics :
    (∀ (loc : LocaleModel) (params : List (Str × ParamValue)) (ign : Bool)
      (fuel : Nat) (opts : List (ParamValue × List Block)) (lits : List Str)
      (nm off : Str) (bs bs' : List Block),
      hmGet opts pvArgumentName = some (Block.str nm :: bs) →
      hmGet opts pvArgumentOffset = some (Block.str off :: bs') →
      pLookup params nm = none →
      fmtGo loc params ign (fuel + 1) [Block.plural opts] lits =
        .ok (["Undefined parameter - ".data ++ nm], lits)) ∧
    (∀ (loc : LocaleModel) (params : List (Str × ParamValue)) (ign : Bool)
      (fuel : Nat) (opts : List (ParamValue × List Block)) (lits : List Str)
      (nm off s : Str) (bs bs' : List Block),
      hmGet opts pvArgumentName = some (Block.str nm :: bs) →
      hmGet opts pvArgumentOffset = some (Block.str off :: bs') →
      pLookup params nm = some (.str s) →
      fmtGo loc params ign (fuel + 1) [Block.plural opts] lits =
        .ok (["Invalid parameter - ".data ++ nm], lits)) ∧
    (∀ (loc : LocaleModel) (params : List (Str × ParamValue)) (ign : Bool)
      (fuel : Nat) (opts : List (ParamValue × List Block)) (lits : List Str)
      (nm off : Str) (bs bs' : List Block) (v : Int),
      hmGet opts pvArgumentName = some (Block.str nm :: bs) →
      hmGet opts pvArgumentOffset = some (Block.str off :: bs') →
      pLookup params nm = some (.int v) →
      parseI64 off = none →
      fmtGo loc params ign (fuel + 1) [Block.plural opts] lits =
        .ok (["Invalid offset - ".data ++ off], lits)) ∧
    format_impl enUS "\x7bresult\x7d".data false [("A".data, .str "none".data)] =
      .ok "Undefined parameter - result".data := by
  refine ⟨?_, ?_, ?_, rfl⟩
  · intro loc params ign fuel opts lits nm off bs bs' hname hoff hlook
    simp [fmtGo, pluralOrdinalPrelude, hname, hoff, hlook]
  · intro loc params ign fuel opts lits nm off s bs bs' hname hoff hlook
    simp [fmtGo, pluralOrdinalPrelude, hname, hoff, hlook]
  · intro loc params ign fuel opts lits nm off bs bs' v hname hoff hlook hparse
    simp [fmtGo, pluralOrdinalPrelude, hname, hoff, hlook, hparse]

/-- C8 (witness): the diagnostic equations at a concrete plural block. -/
theorem c8_witness :
    fmtGo enUS [] false 1 [Block.plural
      [(pvArgumentOffset, [Block.str "0".data]),
       (pvArgumentName, [Block.str "N".data])]] [] =
      .ok (["Undefined parameter - N".data], []) ∧
    fmtGo enUS [("N".data, .str "x".data)] false 1 [Block.plural
      [(pvArgumentOffset, [Block.str "0".data]),
       (pvArgumentName, [Block.str "N".data])]] [] =
      .ok (["Invalid parameter - N".data], []) ∧
    fmtGo enUS [("N".data, .int 3)] false 1 [Block.plural
      [(pvArgumentOffset, [Block.str "y".data]),
       (pvArgumentName, [Block.str "N".data])]] [] =
      .ok (["Invalid offset - y".data], []) := by
  refine ⟨?_, ?_, ?_⟩
  · exact c8_runtime_diagnostics.1 enUS [] false 0 _ [] "N".data "0".data [] []
      rfl rfl rfl
  · exact c8_runtime_diagnostics.2.1 enUS _ false 0 _ [] "N".data "0".data
      "x".data [] [] rfl rfl rfl
  · exact c8_runtime_diagnostics.2.2.1 enUS _ false 0 _ [] "N".data "y".data
      [] [] 3 rfl rfl rfl rfl

/-- C9 (counterexample): the claim is false as stated. In a select block
the leading `=` of a key token is not dropped (`=male` stays `=male`), and
no decimal parse is ever attempted on keys: the plural key token `1.5`
becomes the Text key `1.5`, not a numeric key. -/
theorem c9_counterexample :
    parseSelectKey "=male".data = ParamValue.str "=male".data ∧
    parseSelectKey "=male".data ≠ ParamValue.str "male".data ∧
    parsePluralKey "1.5".data = ParamValue.str "1.5".data := by
  exact ⟨rfl, by decide, rfl⟩

/-- C9 (amended): key tokens of plural/selectordinal blocks are stripped
of whitespace and a leading `=`; key tokens of select blocks have all
whitespace removed but keep a leading `=`; the cleaned token is then
interpreted by integer (`i64`) parse only, falling back to a Text key —
no decimal parse is attempted. -/
theorem c9_key_parsing :
    (∀ raw : Str,
      (∃ n, parseI64 (kvReplaceAllAux raw.length raw) = some n ∧
        parsePluralKey raw = .int n) ∨
      (parseI64 (kvReplaceAllAux raw.length raw) = none ∧
        parsePluralKey raw = .str (kvReplaceAllAux raw.length raw))) ∧
    (∀ raw : Str,
      (∃ n, parseI64 (raw.filter (fun c => !isWs c)) = some n ∧
        parseSelectKey raw = .int n) ∨
      (parseI64 (raw.filter (fun c => !isWs c)) = none ∧
        parseSelectKey raw = .str (raw.filter (fun c => !isWs c)))) ∧
    parsePluralKey " =0 ".data = .int 0 ∧
    parsePluralKey " =12 ".data = .int 12 ∧
    parsePluralKey " one ".data = .str "one".data ∧
    parseSelectKey " 33 ".data = .int 33 ∧
    parseSelectKey " ma le ".data = .str "male".data := by
  refine ⟨?_, ?_, rfl, rfl, rfl, rfl, rfl⟩
  · intro raw
    unfold parsePluralKey
    cases h : parseI64 (kvReplaceAllAux raw.length raw) with
    | none => exact Or.inr ⟨rfl, by simp [h]⟩
    | some n => exact Or.inl ⟨n, rfl, by simp [h]⟩
  · intro raw
    unfold parseSelectKey
    cases h : parseI64 (raw.filter (fun c => !isWs c)) with
    | none => exact Or.inr ⟨rfl, by simp [h]⟩
    | some n => exact Or.inl ⟨n, rfl, by simp [h]⟩

/-- C1 (counterexample): the claim is false as stated at the extremes of
the i64 range. At `v = i64::MIN` with offset 0 and no exact key, the
claim asserts a branch chosen by the plural category of `|v - 0| = 2^63`,
but the renderer panics: `diff.abs().try_into::<u64>().unwrap()`
(`src/lib.rs`, lines 593-595) cannot produce the absolute value of
`i64::MIN` in either build mode. And at offset 1, even with an explicit
`=v` key present, the claim asserts that branch is chosen while the
checked `i64` subtraction of line 586 already panics. -/
theorem c1_counterexample :
    choosePluralOption [(pvOther, [Block.str "O".data])] (-(2 ^ 63))
      (plural_rules_select enUS) 0 =
      .error "attempt to negate with overflow" ∧
    fmtGo enUS [("N".data, ParamValue.int (-(2 ^ 63)))] false 2
      [Block.plural
        [(pvArgumentOffset, [Block.str "0".data]),
         (pvArgumentName, [Block.str "N".data]),
         (pvOther, [Block.str "O".data])]] [] =
      .error "attempt to negate with overflow" ∧
    pluralOrdinalPrelude
      [(pvArgumentOffset, [Block.str "1".data]),
       (pvArgumentName, [Block.str "N".data]),
       (ParamValue.int (-(2 ^ 63)), [Block.str "E".data])]
      [("N".data, ParamValue.int (-(2 ^ 63)))] =
      .error "attempt to subtract with overflow" :=
  ⟨rfl, rfl, rfl⟩

/-- C1 (amended): branch choice of a compiled Plural block with offset
`k` and numeric runtime value `v`, wherever the renderer's checked `i64`
arithmetic does not panic. (1) If the options table contains a key equal
to the raw, unmodified value `v`, that branch is chosen, bypassing offset
and category logic entirely. (2) Otherwise, provided `v - k` is not
`i64::MIN` (where the `diff.abs()` conversion panics), the branch is
resolved from the plural category selector applied to `|v - k|`. (3) In
that case the choice depends on the selector only through its answer at
`|v - k|` — never through the raw value's category. (4) The prelude hands
the pair `(v, k)` to the branch choice exactly when `v - k` is
representable in `i64`, and panics otherwise. -/
theorem c1_exact_match_priority_and_offset_category :
    (∀ (opts : List (ParamValue × List Block)) (sel : Nat → Option Str)
      (v k : Int) (o : List Block),
      hmGet opts (.int v) = some o →
      choosePluralOption opts v sel k = .ok o) ∧
    (∀ (opts : List (ParamValue × List Block)) (sel : Nat → Option Str)
      (v k : Int),
      hmGet opts (.int v) = none → v - k ≠ -(2 ^ 63) →
      choosePluralOption opts v sel k =
        categoryResolve opts (sel (v - k).natAbs)) ∧
    (∀ (opts : List (ParamValue × List Block)) (sel sel' : Nat → Option Str)
      (v k : Int),
      sel (v - k).natAbs = sel' (v - k).natAbs →
      choosePluralOption opts v sel k = choosePluralOption opts v sel' k) ∧
    (∀ (opts : List (ParamValue × List Block))
      (params : List (Str × ParamValue)) (nm off : Str)
      (bs bs' : List Block) (v k : Int),
      hmGet opts pvArgumentName = some (Block.str nm :: bs) →
      hmGet opts pvArgumentOffset = some (Block.str off :: bs') →
      pLookup params nm = some (.int v) →
      parseI64 off = some k →
      pluralOrdinalPrelude opts params =
        (if v - k < -(2 ^ 63) ∨ 2 ^ 63 - 1 < v - k then
          .error "attempt to subtract with overflow"
        else .ok (.inr (v, k)))) := by
  refine ⟨?_, ?_, ?_, ?_⟩
  · intro opts sel v k o h
    simp [choosePluralOption, h]
  · intro opts sel v k h hmin
    simp only [choosePluralOption, h, if_neg hmin]
  · intro opts sel sel' v k h
    unfold choosePluralOption
    cases hget : hmGet opts (.int v) <;> simp [h]
  · intro opts params nm off bs bs' v k hname hoff hlook hparse
    simp [pluralOrdinalPrelude, hname, hoff, hlook, hparse]

/-- C1 (witness): the amended statement at concrete data — exact-match
bypass (`=5` branch hit at raw value 5), category path on the offset
difference for raw value 7 with no exact key, selector-dependence through
`|v - k|` only, and the prelude handing over an in-range pair. -/
theorem c1_witness :
    choosePluralOption
      [(ParamValue.int 5, [Block.str "A".data]), (pvOther, [Block.str "B".data])]
      5 (plural_rules_select enUS) 1 = .ok [Block.str "A".data] ∧
    choosePluralOption
      [(ParamValue.int 5, [Block.str "A".data]), (pvOther, [Block.str "B".data])]
      7 (plural_rules_select enUS) 1 =
      categoryResolve
        [(ParamValue.int 5, [Block.str "A".data]), (pvOther, [Block.str "B".data])]
        (plural_rules_select enUS 6) ∧
    choosePluralOption
      [(ParamValue.int 5, [Block.str "A".data]), (pvOther, [Block.str "B".data])]
      7 (plural_rules_select enUS) 1 =
      choosePluralOption
        [(ParamValue.int 5, [Block.str "A".data]), (pvOther, [Block.str "B".data])]
        7 (ordinal_rules_select enUS) 1 ∧
    pluralOrdinalPrelude
      [(pvArgumentOffset, [Block.str "1".data]),
       (pvArgumentName, [Block.str "N".data])]
      [("N".data, ParamValue.int 3)] = .ok (.inr (3, 1)) := by
  refine ⟨?_, ?_, ?_, ?_⟩
  · exact c1_exact_match_priority_and_offset_category.1 _
      (plural_rules_select enUS) 5 1 _ rfl
  · exact c1_exact_match_priority_and_offset_category.2.1 _
      (plural_rules_select enUS) 7 1 rfl (by decide)
  · exact c1_exact_match_priority_and_offset_category.2.2.1 _
      (plural_rules_select enUS) (ordinal_rules_select enUS) 7 1 rfl
  · exact (c1_exact_match_priority_and_offset_category.2.2.2
      [(pvArgumentOffset, [Block.str "1".data]),
       (pvArgumentName, [Block.str "N".data])]
      [("N".data, ParamValue.int 3)]
      "N".data "1".data [] [] 3 1 rfl rfl rfl rfl).trans rfl

/-- C2: renderer-level pound substitution. For a Plural (and likewise an
Ordinal) block whose argument resolves to value `v` and offset `k`: with
`ignorePound` false the emitted fragment is the rendered chosen branch
with every `#` replaced by the locale-formatted rendering of the exact
signed difference `v - k`; with `ignorePound` true the rendered branch is
emitted unchanged. `replacePound` leaves no `#` behind (whenever the
formatted difference itself has none), and after assembly the renderer
(`format_impl`'s assertion) rejects any surviving literal `#` when
`ignorePound` is false. The substitution hypotheses are satisfiable
exactly on the non-panicking executions: when `v - k` overflows the
checked `i64` subtraction the renderer panics before substituting
anything (final conjunct), so every completed render substitutes the
exact signed difference. -/
theorem c2_pound_substitution :
    (∀ (loc : LocaleModel) (params : List (Str × ParamValue)) (fuel : Nat)
      (opts : List (ParamValue × List Block)) (rest : List Block)
      (lits l1 l2 : List Str) (v k : Int) (option : List Block)
      (ps1 ps2 : List Str),
      pluralOrdinalPrelude opts params = .ok (.inr (v, k)) →
      choosePluralOption opts v (plural_rules_select loc) k = .ok option →
      fmtGo loc params false fuel option lits = .ok (ps1, l1) →
      fmtGo loc params false fuel rest l1 = .ok (ps2, l2) →
      fmtGo loc params false (fuel + 1) (Block.plural opts :: rest) lits =
        .ok (replacePound (joinParts ps1) (loc.formatDecimal (v - k)) :: ps2, l2)) ∧
    (∀ (loc : LocaleModel) (params : List (Str × ParamValue)) (fuel : Nat)
      (opts : List (ParamValue × List Block)) (rest : List Block)
      (lits l1 l2 : List Str) (v k : Int) (option : List Block)
      (ps1 ps2 : List Str),
      pluralOrdinalPrelude opts params = .ok (.inr (v, k)) →
      choosePluralOption opts v (plural_rules_select loc) k = .ok option →
      fmtGo loc params true fuel option lits = .ok (ps1, l1) →
      fmtGo loc params true fuel rest l1 = .ok (ps2, l2) →
      fmtGo loc params true (fuel + 1) (Block.plural opts :: rest) lits =
        .ok (joinParts ps1 :: ps2, l2)) ∧
    (∀ (loc : LocaleModel) (params : List (Str × ParamValue)) (fuel : Nat)
      (opts : List (ParamValue × List Block)) (rest : List Block)
      (lits l1 l2 : List Str) (v k : Int) (option : List Block)
      (ps1 ps2 : List Str),
      pluralOrdinalPrelude opts params = .ok (.inr (v, k)) →
      choosePluralOption opts v (ordinal_rules_select loc) k = .ok option →
      fmtGo loc params false fuel option lits = .ok (ps1, l1) →
      fmtGo loc params false fuel rest l1 = .ok (ps2, l2) →
      fmtGo loc params false (fuel + 1) (Block.ordinal opts :: rest) lits =
        .ok (replacePound (joinParts ps1) (loc.formatDecimal (v - k)) :: ps2, l2)) ∧
    (∀ (s d : Str), '#' ∉ d → '#' ∉ replacePound s d) ∧
    (∀ (loc : LocaleModel) (b : Block) (bs : List Block) (lits0 : List Str)
      (params : List (Str × ParamValue)) (fuel : Nat) (parts : List Str)
      (lits' : List Str),
      fmtGo loc params false fuel (b :: bs) lits0 = .ok (parts, lits') →
      '#' ∈ joinParts parts →
      formatParsed loc (b :: bs) lits0 params false fuel =
        .error "not all # were replaced") ∧
    (∀ (loc : LocaleModel) (params : List (Str × ParamValue)) (ign : Bool)
      (fuel : Nat) (opts : List (ParamValue × List Block)) (rest : List Block)
      (lits : List Str) (nm off : Str) (bs bs' : List Block) (v k : Int),
      hmGet opts pvArgumentName = some (Block.str nm :: bs) →
      hmGet opts pvArgumentOffset = some (Block.str off :: bs') →
      pLookup params nm = some (.int v) →
      parseI64 off = some k →
      (v - k < -(2 ^ 63) ∨ 2 ^ 63 - 1 < v - k) →
      fmtGo loc params ign (fuel + 1) (Block.plural opts :: rest) lits =
        .error "attempt to subtract with overflow") := by
  refine ⟨?_, ?_, ?_, ?_, ?_, ?_⟩
  · intro loc params fuel opts rest lits l1 l2 v k option ps1 ps2 h1 h2 h3 h4
    simp [fmtGo, h1, h2, h3, h4]
  · intro loc params fuel opts rest lits l1 l2 v k option ps1 ps2 h1 h2 h3 h4
    simp [fmtGo, h1, h2, h3, h4]
  · intro loc params fuel opts rest lits l1 l2 v k option ps1 ps2 h1 h2 h3 h4
    simp [fmtGo, h1, h2, h3, h4]
  · intro s d hd
    induction s with
    | nil => simp [replacePound]
    | cons c rest ih =>
      simp only [replacePound]
      intro hmem
      rcases List.mem_append.mp hmem with h | h
      · by_cases hc : c = '#'
        · rw [if_pos hc] at h
          exact hd h
        · rw [if_neg hc] at h
          simp at h
          exact hc h.symm
      · exact ih h
  · intro loc b bs lits0 params fuel parts lits' hfmt hmem
    unfold formatParsed
    rw [hfmt]
    simp [hmem]
  · intro loc params ign fuel opts rest lits nm off bs bs' v k
      hname hoff hlook hparse hover
    norm_num at hover
    simp [fmtGo, pluralOrdinalPrelude, hname, hoff, hlook, hparse, hover]

/-- C2 (witness): the substitution equations at a concrete plural and
ordinal block with offset 1 and value 3 (`#x` renders as `2x`), the
pass-through under `ignorePound`, pound-freeness of the substituted
fragment, the assertion firing on a stray `#`, and the checked
subtraction panicking at `v = i64::MAX`, `k = -1`. -/
theorem c2_witness :
    fmtGo enUS [("N".data, .int 3)] false 2 [Block.plural
      [(pvArgumentOffset, [Block.str "1".data]),
       (pvArgumentName, [Block.str "N".data]),
       (pvOther, [Block.str "#x".data])]] [] = .ok (["2x".data], []) ∧
    fmtGo enUS [("N".data, .int 3)] true 2 [Block.plural
      [(pvArgumentOffset, [Block.str "1".data]),
       (pvArgumentName, [Block.str "N".data]),
       (pvOther, [Block.str "#x".data])]] [] = .ok (["#x".data], []) ∧
    fmtGo enUS [("N".data, .int 3)] false 2 [Block.ordinal
      [(pvArgumentOffset, [Block.str "1".data]),
       (pvArgumentName, [Block.str "N".data]),
       (pvOther, [Block.str "#x".data])]] [] = .ok (["2x".data], []) ∧
    '#' ∉ replacePound "#x#".data "2".data ∧
    formatParsed enUS [Block.str "#".data] [] [] false 1 =
      .error "not all # were replaced" ∧
    fmtGo enUS [("N".data, ParamValue.int (2 ^ 63 - 1))] false 1 [Block.plural
      [(pvArgumentOffset, [Block.str "-1".data]),
       (pvArgumentName, [Block.str "N".data]),
       (pvOther, [Block.str "#x".data])]] [] =
      .error "attempt to subtract with overflow" := by
  refine ⟨?_, ?_, ?_, ?_, ?_, ?_⟩
  · exact c2_pound_substitution.1 enUS _ 1 _ [] [] [] [] 3 1 _ ["#x".data] []
      rfl rfl rfl rfl
  · exact c2_pound_substitution.2.1 enUS _ 1 _ [] [] [] [] 3 1 _ ["#x".data] []
      rfl rfl rfl rfl
  · exact c2_pound_substitution.2.2.1 enUS _ 1 _ [] [] [] [] 3 1 _ ["#x".data] []
      rfl rfl rfl rfl
  · exact c2_pound_substitution.2.2.2.1 "#x#".data "2".data (by decide)
  · exact c2_pound_substitution.2.2.2.2.1 enUS (Block.str "#".data) [] [] [] 1
      ["#".data] [] rfl (by decide)
  · exact c2_pound_substitution.2.2.2.2.2 enUS
      [("N".data, ParamValue.int (2 ^ 63 - 1))] false 0
      [(pvArgumentOffset, [Block.str "-1".data]),
       (pvArgumentName, [Block.str "N".data]),
       (pvOther, [Block.str "#x".data])] [] []
      "N".data "-1".data [] [] (2 ^ 63 - 1) (-1)
      rfl rfl rfl rfl (by decide)

/-! ### The `"other"`-key invariant of compiled choice blocks (C6) -/

/-- Every choice node of the block (recursively) has an `"other"` key in
its options table. -/
inductive GoodBlock : Block → Prop where
  | str (s : Str) : GoodBlock (.str s)
  | simple (s : Str) : GoodBlock (.simple s)
  | select (t : List (ParamValue × List Block)) : containsOther t = true →
      (∀ kv ∈ t, ∀ b ∈ kv.2, GoodBlock b) → GoodBlock (.select t)
  | plural (t : List (ParamValue × List Block)) : containsOther t = true →
      (∀ kv ∈ t, ∀ b ∈ kv.2, GoodBlock b) → GoodBlock (.plural t)
  | ordinal (t : List (ParamValue × List Block)) : containsOther t = true →
      (∀ kv ∈ t, ∀ b ∈ kv.2, GoodBlock b) → GoodBlock (.ordinal t)

/-- All blocks stored in an option table are good. -/
def GoodTable (t : List (ParamValue × List Block)) : Prop :=
  ∀ kv ∈ t, ∀ b ∈ kv.2, GoodBlock b

/-- Precondition on a parser job: a key/value job's accumulator is good. -/
def JobGood : PJob → Prop
  | .pat _ => True
  | .parts _ => True
  | .kvs _ _ acc => GoodTable acc

/-- Postcondition on a parser result: all produced blocks are good. -/
def ResGood : PRes → Prop
  | .blocks bs => ∀ b ∈ bs, GoodBlock b
  | .table t => GoodTable t

theorem goodTable_nil : GoodTable [] := by
  intro kv hkv
  simp at hkv

theorem goodTable_insert (key : ParamValue) (bs : List Block)
    (acc : List (ParamValue × List Block)) (hbs : ∀ b ∈ bs, GoodBlock b)
    (hacc : GoodTable acc) : GoodTable (hmInsert key bs acc) := by
  intro kv hkv b hb
  rcases List.mem_cons.mp hkv with rfl | hkv
  · exact hbs b hb
  · exact hacc kv hkv b hb

theorem goodTable_name (name : Str) :
    GoodTable (hmInsert pvArgumentName [Block.str name] []) :=
  goodTable_insert _ _ _
    (by
      intro b hb
      simp at hb
      subst hb
      exact GoodBlock.str _) goodTable_nil

theorem goodTable_name_offset (name off : Str) :
    GoodTable (hmInsert pvArgumentOffset [Block.str off]
      (hmInsert pvArgumentName [Block.str name] [])) :=
  goodTable_insert _ _ _
    (by
      intro b hb
      simp at hb
      subst hb
      exact GoodBlock.str _) (goodTable_name name)

theorem parseGo_good : ∀ (fuel : Nat) (job : PJob) (res : PRes),
    JobGood job → parseGo fuel job = .ok res → ResGood res := by
  intro fuel
  induction fuel with
  | zero =>
    intro job res hjob heq
    match job with
    | .pat cs => simp [parseGo] at heq
    | .parts [] =>
      simp only [parseGo, Except.ok.injEq] at heq
      subst heq
      simp only [ResGood]
      intro b hb
      simp at hb
    | .parts (p :: r) => simp [parseGo] at heq
    | .kvs kind [] acc =>
      simp only [parseGo, Except.ok.injEq] at heq
      subst heq
      exact hjob
    | .kvs kind (p :: r) acc => simp [parseGo] at heq
  | succ fuel ih =>
    intro job res hjob heq
    match job with
    | .parts [] =>
      simp only [parseGo, Except.ok.injEq] at heq
      subst heq
      simp only [ResGood]
      intro b hb
      simp at hb
    | .kvs kind [] acc =>
      simp only [parseGo, Except.ok.injEq] at heq
      subst heq
      exact hjob
    | .pat cs =>
      simp only [parseGo] at heq
      cases hext : extract_parts cs with
      | error e =>
        simp only [hext] at heq
        exact Except.noConfusion heq
      | ok parts =>
        simp only [hext] at heq
        exact ih (.parts parts) res trivial heq
    | .parts (part :: rest) =>
      simp only [parseGo] at heq
      cases htyp : part.typ with
      | string =>
        simp only [htyp] at heq
        cases hrec : parseGo fuel (.parts rest) with
        | error e =>
          simp only [hrec] at heq
          exact Except.noConfusion heq
        | ok r2 =>
          cases r2 with
          | table t =>
            simp only [hrec] at heq
            exact Except.noConfusion heq
          | blocks bs =>
            simp only [hrec, Except.ok.injEq] at heq
            subst heq
            have hbs := ih (.parts rest) (.blocks bs) trivial hrec
            simp only [ResGood] at hbs ⊢
            intro b hb
            rcases List.mem_cons.mp hb with rfl | hb
            · exact GoodBlock.str _
            · exact hbs b hb
      | block =>
        simp only [htyp] at heq
        cases hcls : classifyBlock part.value with
        | unknownC =>
          simp only [hcls] at heq
          exact Except.noConfusion heq
        | simpleC =>
          simp only [hcls] at heq
          cases hrec : parseGo fuel (.parts rest) with
          | error e =>
            simp only [hrec] at heq
            exact Except.noConfusion heq
          | ok r2 =>
            cases r2 with
            | table t =>
              simp only [hrec] at heq
              exact Except.noConfusion heq
            | blocks bs =>
              simp only [hrec, Except.ok.injEq] at heq
              subst heq
              have hbs := ih (.parts rest) (.blocks bs) trivial hrec
              simp only [ResGood] at hbs ⊢
              intro b hb
              rcases List.mem_cons.mp hb with rfl | hb
              · exact GoodBlock.simple _
              · exact hbs b hb
        | selectC name body =>
          simp only [hcls] at heq
          cases hext : extract_parts body with
          | error e =>
            simp only [hext] at heq
            exact Except.noConfusion heq
          | ok parts2 =>
            simp only [hext] at heq
            cases hkv : parseGo fuel (.kvs .select parts2 (hmInsert pvArgumentName [Block.str name] [])) with
            | error e =>
              simp only [hkv] at heq
              exact Except.noConfusion heq
            | ok r2 =>
              cases r2 with
              | blocks bs =>
                simp only [hkv] at heq
                exact Except.noConfusion heq
              | table tbl =>
                simp only [hkv] at heq
                have htbl := ih (.kvs .select parts2 (hmInsert pvArgumentName [Block.str name] []))
                  (.table tbl) (goodTable_name name) hkv
                by_cases hoth : containsOther tbl = true
                · rw [if_pos hoth] at heq
                  cases hrec : parseGo fuel (.parts rest) with
                  | error e =>
                    simp only [hrec] at heq
                    exact Except.noConfusion heq
                  | ok r3 =>
                    cases r3 with
                    | table t =>
                      simp only [hrec] at heq
                      exact Except.noConfusion heq
                    | blocks bs =>
                      simp only [hrec, Except.ok.injEq] at heq
                      subst heq
                      have hbs := ih (.parts rest) (.blocks bs) trivial hrec
                      simp only [ResGood] at hbs htbl ⊢
                      intro b hb
                      rcases List.mem_cons.mp hb with rfl | hb
                      · exact GoodBlock.select tbl hoth htbl
                      · exact hbs b hb
                · rw [if_neg hoth] at heq
                  exact Except.noConfusion heq
        | pluralC name offsetDigits body =>
          simp only [hcls] at heq
          by_cases hov : offsetValue offsetDigits < 2 ^ 31
          case neg =>
            rw [if_neg hov] at heq
            exact Except.noConfusion heq
          rw [if_pos hov] at heq
          cases hext : extract_parts body with
          | error e =>
            simp only [hext] at heq
            exact Except.noConfusion heq
          | ok parts2 =>
            simp only [hext] at heq
            cases hkv : parseGo fuel (.kvs .plural parts2 (hmInsert pvArgumentOffset
                [Block.str (natRepr (offsetValue offsetDigits))]
                (hmInsert pvArgumentName [Block.str name] []))) with
            | error e =>
              simp only [hkv] at heq
              exact Except.noConfusion heq
            | ok r2 =>
              cases r2 with
              | blocks bs =>
                simp only [hkv] at heq
                exact Except.noConfusion heq
              | table tbl =>
                simp only [hkv] at heq
                have htbl := ih (.kvs .plural parts2 (hmInsert pvArgumentOffset
                [Block.str (natRepr (offsetValue offsetDigits))]
                (hmInsert pvArgumentName [Block.str name] [])))
                  (.table tbl) (goodTable_name_offset name _) hkv
                by_cases hoth : containsOther tbl = true
                · rw [if_pos hoth] at heq
                  cases hrec : parseGo fuel (.parts rest) with
                  | error e =>
                    simp only [hrec] at heq
                    exact Except.noConfusion heq
                  | ok r3 =>
                    cases r3 with
                    | table t =>
                      simp only [hrec] at heq
                      exact Except.noConfusion heq
                    | blocks bs =>
                      simp only [hrec, Except.ok.injEq] at heq
                      subst heq
                      have hbs := ih (.parts rest) (.blocks bs) trivial hrec
                      simp only [ResGood] at hbs htbl ⊢
                      intro b hb
                      rcases List.mem_cons.mp hb with rfl | hb
                      · exact GoodBlock.plural tbl hoth htbl
                      · exact hbs b hb
                · rw [if_neg hoth] at heq
                  exact Except.noConfusion heq
        | ordinalC name body =>
          simp only [hcls] at heq
          cases hext : extract_parts body with
          | error e =>
            simp only [hext] at heq
            exact Except.noConfusion heq
          | ok parts2 =>
            simp only [hext] at heq
            cases hkv : parseGo fuel (.kvs .ordinal parts2 (hmInsert pvArgumentOffset [Block.str "0".data]
                (hmInsert pvArgumentName [Block.str name] []))) with
            | error e =>
              simp only [hkv] at heq
              exact Except.noConfusion heq
            | ok r2 =>
              cases r2 with
              | blocks bs =>
                simp only [hkv] at heq
                exact Except.noConfusion heq
              | table tbl =>
                simp only [hkv] at heq
                have htbl := ih (.kvs .ordinal parts2 (hmInsert pvArgumentOffset [Block.str "0".data]
                (hmInsert pvArgumentName [Block.str name] [])))
                  (.table tbl) (goodTable_name_offset name _) hkv
                by_cases hoth : containsOther tbl = true
                · rw [if_pos hoth] at heq
                  cases hrec : parseGo fuel (.parts rest) with
                  | error e =>
                    simp only [hrec] at heq
                    exact Except.noConfusion heq
                  | ok r3 =>
                    cases r3 with
                    | table t =>
                      simp only [hrec] at heq
                      exact Except.noConfusion heq
                    | blocks bs =>
                      simp only [hrec, Except.ok.injEq] at heq
                      subst heq
                      have hbs := ih (.parts rest) (.blocks bs) trivial hrec
                      simp only [ResGood] at hbs htbl ⊢
                      intro b hb
                      rcases List.mem_cons.mp hb with rfl | hb
                      · exact GoodBlock.ordinal tbl hoth htbl
                      · exact hbs b hb
                · rw [if_neg hoth] at heq
                  exact Except.noConfusion heq
    | .kvs kind (keyPart :: rest) acc =>
      simp only [parseGo] at heq
      match rest, heq with
      | [], heq => simp at heq
      | valPart :: rest2, heq =>
        cases htyp : valPart.typ with
        | string =>
          simp only [htyp] at heq
          exact Except.noConfusion heq
        | block =>
          simp only [htyp] at heq
          cases hrec1 : parseGo fuel (.pat valPart.value) with
          | error e =>
            simp only [hrec1] at heq
            exact Except.noConfusion heq
          | ok r2 =>
            cases r2 with
            | table t =>
              simp only [hrec1] at heq
              exact Except.noConfusion heq
            | blocks bs =>
              simp only [hrec1] at heq
              have hbs := ih (.pat valPart.value) (.blocks bs) trivial hrec1
              simp only [ResGood] at hbs
              exact ih (.kvs kind rest2
                  (hmInsert (parseChoiceKey kind keyPart.value) bs acc)) res
                (goodTable_insert _ _ _ hbs hjob) heq

/-- C6: a select, plural, or selectordinal block whose option table lacks
the key `"other"` makes compilation fail with the corresponding fatal
error, and every block list the parser does produce satisfies the
invariant `GoodBlock`: each choice node's options table (recursively)
contains the key `"other"`. -/
theorem c6_other_key_required :
    (∀ (fuel : Nat) (cs : Str) (bs : List Block),
      parseGo fuel (.pat cs) = .ok (.blocks bs) → ∀ b ∈ bs, GoodBlock b) ∧
    parse_block "\x7bN, plural, one \x7bx\x7d\x7d".data =
      .error "missing other key in plural statement" ∧
    parse_block "\x7bG, select, male \x7ba\x7d\x7d".data =
      .error "missing other key in select statement" ∧
    parse_block "\x7bG, selectordinal, one \x7ba\x7d\x7d".data =
      .error "missing other key in ordinal statement" := by
  refine ⟨?_, rfl, rfl, rfl⟩
  intro fuel cs bs h
  have hres := parseGo_good fuel (.pat cs) (.blocks bs) trivial h
  simpa only [ResGood] using hres

/-- C6 (witness): the invariant instantiated on the compiled form of the
pattern `{N, plural, other {x}}`. -/
theorem c6_witness :
    GoodBlock (Block.plural
      [(ParamValue.str "other".data, [Block.str "x".data]),
       (pvArgumentOffset, [Block.str "0".data]),
       (pvArgumentName, [Block.str "N".data])]) := by
  have h := c6_other_key_required.1
    (2 * ("\x7bN, plural, other \x7bx\x7d\x7d".data).length + 8)
    "\x7bN, plural, other \x7bx\x7d\x7d".data
    [Block.plural
      [(ParamValue.str "other".data, [Block.str "x".data]),
       (pvArgumentOffset, [Block.str "0".data]),
       (pvArgumentName, [Block.str "N".data])]] rfl
  exact h _ (List.mem_singleton.mpr rfl)

/-- C10: the placeholder-token encoding is collision-free — distinct
indices give distinct tokens, and no token ever occurs as a substring of
another token. -/
theorem c10_placeholder_collision_free : ∀ (i j : Nat), i ≠ j →
    placeholder i ≠ placeholder j ∧ ¬ (placeholder i <:+: placeholder j) := by
  intro i j hij
  refine ⟨?_, ?_⟩
  · intro h
    exact hij (placeholder_infix_inj (h ▸ List.infix_refl (placeholder i)))
  · intro h
    exact hij (placeholder_infix_inj h)

/-- C10 (witness): collision-freeness at the concrete indices 0 and 1. -/
theorem c10_witness :
    placeholder 0 ≠ placeholder 1 ∧ ¬ (placeholder 0 <:+: placeholder 1) :=
  c10_placeholder_collision_free 0 1 (by decide)

set_option maxRecDepth 8192 in
/-- C7 (counterexample): the claim is false as stated. `Integer(n)` and
`Decimal(x)` are compared through the saturating `x as i64` cast, so the
finite integral value `2^100` — far outside the `i64` range — compares
equal to `Integer(i64::MAX)` even though `x == n` fails. -/
theorem c7_counterexample :
    paramEq (.int (2 ^ 63 - 1)) (.dec (.finite ((2 : ℚ) ^ 100))) = true ∧
    ((2 : ℚ) ^ 100) ≠ ((2 ^ 63 - 1 : Int) : ℚ) := by
  exact ⟨by decide, by decide⟩

/-- C7 (amended): `Integer(n) == Decimal(x)` iff `x` is finite, has zero
fractional part (its rational value is an integer), and the saturating
`i64` cast of that integer equals `n`; when the integer lies inside the
`i64` range this coincides with plain `x == n`; and whenever two
`ParamValue`s compare equal their hash inputs (hence hashes) agree. -/
theorem c7_eq_hash_characterization :
    (∀ (n : Int) (x : F64),
      paramEq (.int n) (.dec x) = true ↔
        ∃ q : ℚ, x = .finite q ∧ q.den = 1 ∧ satCastI64 q.num = n) ∧
    (∀ (n : Int) (q : ℚ), q.den = 1 → -(2 ^ 63) ≤ q.num → q.num < 2 ^ 63 →
      (paramEq (.int n) (.dec (.finite q)) = true ↔ q = (n : ℚ))) ∧
    (∀ a b : ParamValueInner, paramEq a b = true → paramHash a = paramHash b) := by
  have hsat : ∀ z : Int, -(2 ^ 63) ≤ z → z < 2 ^ 63 → satCastI64 z = z := by
    intro z h1 h2
    unfold satCastI64
    rw [min_eq_right (by omega), max_eq_right (by omega)]
  refine ⟨?_, ?_, ?_⟩
  · intro n x
    cases x with
    | finite q =>
      by_cases hden : q.den = 1
      · simp only [paramEq, as_integer, hden, if_pos, decide_eq_true_eq,
          Option.some.injEq, F64.finite.injEq]
        constructor
        · intro h
          exact ⟨q, rfl, hden, h⟩
        · rintro ⟨q', hq, hden', hcast⟩
          subst hq
          exact hcast
      · simp only [paramEq, as_integer, hden, if_neg, if_false,
          decide_eq_true_eq, F64.finite.injEq]
        constructor
        · intro h
          exact absurd h (by simp)
        · rintro ⟨q', hq, hden', hcast⟩
          subst hq
          exact absurd hden' hden
    | inf b =>
      simp [paramEq, as_integer]
    | nan =>
      simp [paramEq, as_integer]
  · intro n q hden h1 h2
    have hs := hsat q.num h1 h2
    simp only [paramEq, as_integer, hden, if_pos, hs, decide_eq_true_eq,
      Option.some.injEq]
    constructor
    · intro h
      rw [← h, Rat.coe_int_num_of_den_eq_one hden]
    · intro h
      have : q.num = ((n : ℚ)).num := by rw [h]
      simpa using this
  · intro a b h
    cases a with
    | int na =>
      cases b with
      | int nb =>
        simp only [paramEq, decide_eq_true_eq] at h
        rw [h]
      | dec x =>
        simp only [paramEq, decide_eq_true_eq] at h
        simp [paramHash, h]
      | string s => simp [paramEq] at h
    | dec x =>
      cases b with
      | int nb =>
        simp only [paramEq, decide_eq_true_eq] at h
        simp [paramHash, h]
      | dec y =>
        simp only [paramEq, decide_eq_true_eq] at h
        rw [h]
      | string s => simp [paramEq] at h
    | string s =>
      cases b with
      | int nb => simp [paramEq] at h
      | dec y => simp [paramEq] at h
      | string s' =>
        simp only [paramEq, decide_eq_true_eq] at h
        rw [h]

/-- C7 (witness): the amended characterisation and hash consistency at the
concrete pair `Integer(7)` / `Decimal(7.0)`. -/
theorem c7_witness :
    paramEq (.int 7) (.dec (.finite (7 : ℚ))) = true ∧
    paramHash (.int 7) = paramHash (.dec (.finite (7 : ℚ))) := by
  have h2 := (c7_eq_hash_characterization.2.1 7 (7 : ℚ)
    (by decide) (by decide) (by decide)).mpr (by norm_num)
  exact ⟨h2, c7_eq_hash_characterization.2.2 _ _ h2⟩

end MsgFmt
